import Mathlib

/-!
# Verification of the egui_extras table layout engine

Shallow embedding of `crates/egui_extras/src/table.rs` and
`crates/egui_extras/src/row_resize.rs`.

Conventions of the embedding:
* `f32`/`f64` values are modelled as exact rationals (`ℚ`); the claims under
  study are arithmetic identities and inequalities, so we work in exact
  arithmetic.  Rust float-to-integer casts (`as usize`), which saturate at 0
  for negative values, are modelled with `Int.toNat`.
* `usize` is `Nat`; Rust's saturating subtraction on `usize` is `Nat`
  subtraction.
* The immediate-mode UI context is made explicit: per-frame pointer input,
  drag-response flags and the frame-persisted blobs (`TableState`,
  `ResizePreviewState`, `RowResizeState`) are plain inputs and outputs of the
  per-frame step functions.
* `Table::body` forces `item_spacing` to zero before building the table body
  (`ui.spacing_mut().item_spacing = egui::Vec2::ZERO`); the row virtualizers
  nevertheless read the spacing, so it is kept as a parameter here.
-/

namespace EguiTable

/-- Model of `egui::Rangef`: an inclusive range of coordinates. -/
structure Rangef where
  min : ℚ
  max : ℚ
deriving DecidableEq, Repr

/-- Model of `Rangef::clamp(x)` = `x.clamp(self.min, self.max)`.  For an ordered range
(`min ≤ max`) this is exactly Rust's float clamp. -/
def Rangef.clamp (r : Rangef) (x : ℚ) : ℚ :=
  Max.max r.min (Min.min x r.max)

/-- Model of `egui::NumExt::at_least` = `self.max(lower_limit)`. -/
def atLeast (x lowerLimit : ℚ) : ℚ := Max.max x lowerLimit

/-- Model of `egui::NumExt::at_most` = `self.min(upper_limit)`. -/
def atMost (x upperLimit : ℚ) : ℚ := Min.min x upperLimit

theorem Rangef.clamp_mem (r : Rangef) (x : ℚ) (h : r.min ≤ r.max) :
    r.min ≤ r.clamp x ∧ r.clamp x ≤ r.max := by
  unfold Rangef.clamp
  constructor
  · exact le_max_left _ _
  · exact max_le h (min_le_right _ _)

theorem Rangef.le_clamp_of_le (r : Rangef) (x y : ℚ) (hy : y ≤ x) (hmax : y ≤ r.max) :
    y ≤ r.clamp x := by
  unfold Rangef.clamp
  exact le_max_of_le_right (le_min hy hmax)

/-- Rust's `Iterator::enumerate` starting at index `n`. -/
def enumerate : Nat → List ℚ → List (Nat × ℚ)
  | _, [] => []
  | n, h :: t => (n, h) :: enumerate (n + 1) t

theorem enumerate_fst_ge (n : Nat) (l : List ℚ) :
    ∀ p ∈ enumerate n l, n ≤ p.1 := by
  induction l generalizing n with
  | nil => intro p hp; simp [enumerate] at hp
  | cons h t ih =>
    intro p hp
    simp only [enumerate, List.mem_cons] at hp
    rcases hp with rfl | hp
    · exact le_refl _
    · exact le_trans (Nat.le_succ _) (ih (n + 1) p hp)

/-- Sum of `height + spacing` over an enumerated height list: the vertical
extent these rows occupy in content coordinates. -/
def heightsTotal (spacing : ℚ) (l : List (Nat × ℚ)) : ℚ :=
  (l.map (fun p => p.2 + spacing)).sum

theorem heightsTotal_nil (spacing : ℚ) : heightsTotal spacing [] = 0 := rfl

theorem heightsTotal_cons (spacing : ℚ) (p : Nat × ℚ) (l : List (Nat × ℚ)) :
    heightsTotal spacing (p :: l) = (p.2 + spacing) + heightsTotal spacing l := by
  simp [heightsTotal]

theorem heightsTotal_append (spacing : ℚ) (l₁ l₂ : List (Nat × ℚ)) :
    heightsTotal spacing (l₁ ++ l₂) = heightsTotal spacing l₁ + heightsTotal spacing l₂ := by
  simp [heightsTotal]

theorem heightsTotal_enumerate (spacing : ℚ) (n : Nat) (l : List ℚ) :
    heightsTotal spacing (enumerate n l) = (l.map (fun h => h + spacing)).sum := by
  induction l generalizing n with
  | nil => simp [enumerate, heightsTotal]
  | cons h t ih =>
    simp only [enumerate, heightsTotal_cons, List.map_cons, List.sum_cons, ih]

theorem heightsTotal_nonneg (spacing : ℚ) (l : List (Nat × ℚ))
    (hsp : 0 ≤ spacing) (hl : ∀ p ∈ l, 0 ≤ p.2) : 0 ≤ heightsTotal spacing l := by
  induction l with
  | nil => simp [heightsTotal]
  | cons p t ih =>
    rw [heightsTotal_cons]
    have hp := hl p (List.mem_cons_self p t)
    have ht := ih (fun q hq => hl q (List.mem_cons_of_mem p hq))
    linarith

-- ---------------------------------------------------------------------------
-- Uniform-height virtualization: `TableBody::rows` (table.rs, lines 1875-1940)
-- ---------------------------------------------------------------------------

/-- Result of one `TableBody::rows` call: which rows were emitted, the spacer
("buffer") heights, and the resolved scroll-to target, if any. -/
structure UniformRowsResult where
  /-- the clamped scroll offset actually used for windowing -/
  scroll_offset_y : ℚ
  min_row : Nat
  max_row : Nat
  /-- `add_buffer(min_row as f32 * row_height_with_spacing)`, 0 when not emitted -/
  leadingSpacer : ℚ
  /-- indices of the rows actually rendered, in order -/
  renderedRows : List Nat
  /-- `add_buffer(skip_height - spacing.y)`, 0 when not emitted -/
  trailingSpacer : ℚ
  /-- `scroll_to_y_range` after the call -/
  scrollToY : Option (ℚ × ℚ)
deriving DecidableEq, Repr

/-- Model of `TableBody::rows` (table.rs lines 1875-1940).  `base` is
`self.layout.cursor.y` at entry, `scrollOffsetRaw` is `self.scroll_offset_y()`
and `maxHeight` is `self.y_range.span()`. -/
def TableBody.rows (rowHeightSansSpacing spacingY : ℚ) (totalRows : Nat)
    (base scrollOffsetRaw maxHeight : ℚ) (scrollToRow : Option Nat) :
    UniformRowsResult :=
  let rowHeightWithSpacing := rowHeightSansSpacing + spacingY
  let scrollToY : Option (ℚ × ℚ) :=
    match scrollToRow with
    | none => none
    | some r =>
        let r' : ℚ := ((Min.min r (totalRows - 1) : Nat) : ℚ)
        some (base + r' * rowHeightWithSpacing, base + (r' + 1) * rowHeightWithSpacing)
  let scrollOffsetY := Min.min scrollOffsetRaw ((totalRows : ℚ) * rowHeightWithSpacing)
  let minRow : Nat :=
    if 0 < scrollOffsetY then (⌊scrollOffsetY / rowHeightWithSpacing⌋).toNat else 0
  let leading : ℚ :=
    if 0 < scrollOffsetY then (minRow : ℚ) * rowHeightWithSpacing else 0
  let maxRow0 : Nat := (⌈(scrollOffsetY + maxHeight) / rowHeightWithSpacing⌉).toNat + 1
  let maxRow := Min.min maxRow0 totalRows
  let trailing : ℚ :=
    if 0 < totalRows - maxRow then
      ((totalRows - maxRow : Nat) : ℚ) * rowHeightWithSpacing - spacingY
    else 0
  { scroll_offset_y := scrollOffsetY
    min_row := minRow
    max_row := maxRow
    leadingSpacer := leading
    renderedRows := List.range' minRow (maxRow - minRow)
    trailingSpacer := trailing
    scrollToY := scrollToY }

-- ---------------------------------------------------------------------------
-- Variable-height virtualization: `TableBody::heterogeneous_rows`
-- (table.rs, lines 1970-2091)
-- ---------------------------------------------------------------------------

/-- First loop of `heterogeneous_rows` (lines 1992-2027): skip the rows above
the visible range, recording the scroll-to target along the way; stop at the
first row whose cumulative end offset reaches `off`.  Returns
`(some (leading, firstVisibleRow), rest, cursor, scrollAcc)` when a visible
row was found, where `leading` is the `add_buffer(old_cursor_y)` argument, or
`(none, [], cursor, scrollAcc)` when the iterator was exhausted. -/
def hetPhase1 (str : Option Nat) (off spacing base : ℚ) :
    List (Nat × ℚ) → ℚ → Option (ℚ × ℚ) →
    Option (ℚ × (Nat × ℚ)) × List (Nat × ℚ) × ℚ × Option (ℚ × ℚ)
  | [], cursor, sAcc => (none, [], cursor, sAcc)
  | (i, h) :: rest, cursor, sAcc =>
    let oldCursor := cursor
    let cursor2 := cursor + (h + spacing)
    let sAcc2 := if str = some i then some (base + oldCursor, base + cursor2) else sAcc
    if off ≤ cursor2 then (some (oldCursor, (i, h)), rest, cursor2, sAcc2)
    else hetPhase1 str off spacing base rest cursor2 sAcc2

/-- Second loop of `heterogeneous_rows` (lines 2030-2063): render rows until
one ends strictly below the visible range.  Returns
`(rendered, remaining, cursor, scrollAcc)`. -/
def hetPhase2 (str : Option Nat) (limit spacing base : ℚ) :
    List (Nat × ℚ) → ℚ → Option (ℚ × ℚ) →
    List (Nat × ℚ) × List (Nat × ℚ) × ℚ × Option (ℚ × ℚ)
  | [], cursor, sAcc => ([], [], cursor, sAcc)
  | (i, h) :: rest, cursor, sAcc =>
    let topY := cursor
    let cursor2 := cursor + (h + spacing)
    let sAcc2 := if str = some i then some (base + topY, base + cursor2) else sAcc
    if limit < cursor2 then ([(i, h)], rest, cursor2, sAcc2)
    else
      let out := hetPhase2 str limit spacing base rest cursor2 sAcc2
      ((i, h) :: out.1, out.2)

/-- Third loop of `heterogeneous_rows` (lines 2066-2078): sum the remaining
rows into `height_below_visible`.  Returns `(below, cursor, scrollAcc)`. -/
def hetPhase3 (str : Option Nat) (spacing base : ℚ) :
    List (Nat × ℚ) → ℚ → Option (ℚ × ℚ) →
    ℚ × ℚ × Option (ℚ × ℚ)
  | [], cursor, sAcc => (0, cursor, sAcc)
  | (i, h) :: rest, cursor, sAcc =>
    let topY := cursor
    let cursor2 := cursor + (h + spacing)
    let sAcc2 := if str = some i then some (base + topY, base + cursor2) else sAcc
    let out := hetPhase3 str spacing base rest cursor2 sAcc2
    ((h + spacing) + out.1, out.2)

/-- Result of one `TableBody::heterogeneous_rows` call. -/
structure HetRowsResult where
  /-- height of the leading spacer (`add_buffer(old_cursor_y)`); 0 when the
  skip loop exhausted the iterator without finding a visible row -/
  leading : ℚ
  /-- the rows actually rendered, in order, with their heights -/
  rendered : List (Nat × ℚ)
  /-- height of the trailing spacer; 0 when not emitted -/
  trailing : ℚ
  /-- `scroll_to_y_range` after the call -/
  scrollToY : Option (ℚ × ℚ)
  /-- final value of `cursor_y` (the total content height) -/
  cursorEnd : ℚ
deriving DecidableEq, Repr

/-- Model of `TableBody::heterogeneous_rows` (table.rs lines 1970-2091).  `base` is
`scroll_to_y_range_offset = self.layout.cursor.y`, `off` is
`self.scroll_offset_y()`, `maxHeight` is `self.y_range.span()`. -/
def TableBody.heterogeneous_rows (spacing : ℚ) (heights : List ℚ)
    (off maxHeight base : ℚ) (scrollToRow : Option Nat) : HetRowsResult :=
  let l := enumerate 0 heights
  let p1 := hetPhase1 scrollToRow off spacing base l 0 none
  match p1 with
  | (none, _, cursor, sAcc) =>
    -- lines 2080-2084: catch the desire to scroll past the end
    let sAcc2 := if scrollToRow.isSome ∧ sAcc = none
      then some (base + cursor, base + cursor) else sAcc
    { leading := 0, rendered := [], trailing := 0, scrollToY := sAcc2,
      cursorEnd := cursor }
  | (some (leading, firstRow), rest, cursor, sAcc) =>
    let p2 := hetPhase2 scrollToRow (off + maxHeight) spacing base rest cursor sAcc
    let p3 := hetPhase3 scrollToRow spacing base p2.2.1 p2.2.2.1 p2.2.2.2
    let below := p3.1
    let sAcc3 := if scrollToRow.isSome ∧ p3.2.2 = none
      then some (base + p3.2.1, base + p3.2.1) else p3.2.2
    { leading := leading
      rendered := firstRow :: p2.1
      trailing := if 0 < below then below else 0
      scrollToY := sAcc3
      cursorEnd := p3.2.1 }

theorem hetPhase1_none (str : Option Nat) (off sp base : ℚ) :
    ∀ (l : List (Nat × ℚ)) (cursor : ℚ) (sAcc : Option (ℚ × ℚ))
      (rest : List (Nat × ℚ)) (c : ℚ) (s : Option (ℚ × ℚ)),
      hetPhase1 str off sp base l cursor sAcc = (none, rest, c, s) →
      rest = [] ∧ c = cursor + heightsTotal sp l := by
  intro l
  induction l with
  | nil =>
    intro cursor sAcc rest c s h
    simp only [hetPhase1, Prod.mk.injEq] at h
    simp [heightsTotal_nil, h.2.1.symm, h.2.2.1.symm]
  | cons p t ih =>
    intro cursor sAcc rest c s h
    obtain ⟨i, hh⟩ := p
    simp only [hetPhase1] at h
    split at h
    · simp at h
    · have := ih _ _ _ _ _ h
      refine ⟨this.1, ?_⟩
      rw [this.2, heightsTotal_cons]
      ring

theorem hetPhase1_some (str : Option Nat) (off sp base : ℚ) :
    ∀ (l : List (Nat × ℚ)) (cursor : ℚ) (sAcc : Option (ℚ × ℚ))
      (lead : ℚ) (fr : Nat × ℚ) (rest : List (Nat × ℚ)) (c : ℚ) (s : Option (ℚ × ℚ)),
      hetPhase1 str off sp base l cursor sAcc = (some (lead, fr), rest, c, s) →
      ∃ pre, l = pre ++ fr :: rest ∧ lead = cursor + heightsTotal sp pre ∧
        c = lead + (fr.2 + sp) := by
  intro l
  induction l with
  | nil =>
    intro cursor sAcc lead fr rest c s h
    simp [hetPhase1] at h
  | cons p t ih =>
    intro cursor sAcc lead fr rest c s h
    obtain ⟨i, hh⟩ := p
    simp only [hetPhase1] at h
    split at h
    · simp only [Prod.mk.injEq, Option.some.injEq] at h
      obtain ⟨⟨hlead, hfr⟩, hrest, hc, -⟩ := h
      refine ⟨[], ?_, ?_, ?_⟩
      · simp [hfr, hrest]
      · simp [heightsTotal_nil, hlead]
      · rw [← hc, ← hlead, ← hfr]
    · obtain ⟨pre, hpre, hlead, hc⟩ := ih _ _ _ _ _ _ _ h
      refine ⟨(i, hh) :: pre, ?_, ?_, hc⟩
      · simp [hpre]
      · rw [hlead, heightsTotal_cons]
        ring

theorem hetPhase2_decomp (str : Option Nat) (lim sp base : ℚ) :
    ∀ (l : List (Nat × ℚ)) (cursor : ℚ) (sAcc : Option (ℚ × ℚ)),
      l = (hetPhase2 str lim sp base l cursor sAcc).1 ++
            (hetPhase2 str lim sp base l cursor sAcc).2.1 ∧
      (hetPhase2 str lim sp base l cursor sAcc).2.2.1 =
        cursor + heightsTotal sp (hetPhase2 str lim sp base l cursor sAcc).1 := by
  intro l
  induction l with
  | nil =>
    intro cursor sAcc
    simp [hetPhase2, heightsTotal_nil]
  | cons p t ih =>
    intro cursor sAcc
    obtain ⟨i, hh⟩ := p
    simp only [hetPhase2]
    split
    · simp only [List.cons_append, List.nil_append, heightsTotal_cons, heightsTotal_nil]
      exact ⟨by simp, by ring⟩
    · obtain ⟨h1, h2⟩ := ih (cursor + (hh + sp))
        (if str = some i then some (base + cursor, base + (cursor + (hh + sp))) else sAcc)
      constructor
      · simpa using h1
      · simp only [h2, heightsTotal_cons]
        ring

theorem hetPhase3_spec (str : Option Nat) (sp base : ℚ) :
    ∀ (l : List (Nat × ℚ)) (cursor : ℚ) (sAcc : Option (ℚ × ℚ)),
      (hetPhase3 str sp base l cursor sAcc).1 = heightsTotal sp l ∧
      (hetPhase3 str sp base l cursor sAcc).2.1 = cursor + heightsTotal sp l := by
  intro l
  induction l with
  | nil =>
    intro cursor sAcc
    simp [hetPhase3, heightsTotal_nil]
  | cons p t ih =>
    intro cursor sAcc
    obtain ⟨i, hh⟩ := p
    simp only [hetPhase3, heightsTotal_cons]
    obtain ⟨h1, h2⟩ := ih (cursor + (hh + sp))
      (if str = some i then some (base + cursor, base + (cursor + (hh + sp))) else sAcc)
    refine ⟨by rw [h1], by rw [h2]; ring⟩

theorem hetPhase1_finds_row (str : Option Nat) (off sp base : ℚ) :
    ∀ (l : List (Nat × ℚ)) (cursor : ℚ) (sAcc : Option (ℚ × ℚ)),
      l ≠ [] → off ≤ cursor + heightsTotal sp l →
      (hetPhase1 str off sp base l cursor sAcc).1.isSome := by
  intro l
  induction l with
  | nil => intro cursor sAcc hne; exact absurd rfl hne
  | cons p t ih =>
    intro cursor sAcc _ hoff
    obtain ⟨i, hh⟩ := p
    simp only [hetPhase1]
    split
    · simp
    · rename_i hcond
      rcases t with - | ⟨q, t'⟩
      · exfalso
        rw [heightsTotal_cons, heightsTotal_nil] at hoff
        exact hcond (by linarith)
      · exact ih _ _ (by simp)
          (by rw [heightsTotal_cons] at hoff; linarith)

theorem enumerate_snd_mem (n : Nat) (l : List ℚ) :
    ∀ p ∈ enumerate n l, p.2 ∈ l := by
  induction l generalizing n with
  | nil => intro p hp; simp [enumerate] at hp
  | cons h t ih =>
    intro p hp
    simp only [enumerate, List.mem_cons] at hp
    rcases hp with rfl | hp
    · simp
    · exact List.mem_cons_of_mem _ (ih (n + 1) p hp)

theorem heightsTotal_zero_spacing (l : List (Nat × ℚ)) :
    heightsTotal 0 l = (l.map Prod.snd).sum := by
  simp [heightsTotal]

theorem heightsTotal_enumerate_zero (heights : List ℚ) :
    heightsTotal 0 (enumerate 0 heights) = heights.sum := by
  rw [heightsTotal_enumerate]
  simp

/-- C1 (amended).  Variable-height virtualization exactness: for every finite
sequence of nonnegative row heights, every viewport height, and every scroll
offset that does not exceed the total content height (in particular offset 0
and offset exactly equal to the total content height),
`TableBody::heterogeneous_rows` partitions the enumerated height sequence into
a leading spacer, a contiguous rendered window and a trailing spacer with
`leading + Σ (rendered row heights) + trailing = Σ (all row heights)`, and the
result is deterministic (identical for identical inputs).  (For offsets
strictly beyond the total content height the skip loop exhausts the row
iterator without rendering anything: leading spacer, rendered window and
trailing spacer are then all zero — see the counterexample.)  Spacing is zero
here because `Table::body` forces `item_spacing` to zero. -/
theorem heterogeneous_rows_exactness :
    (∀ (heights : List ℚ) (off maxHeight base : ℚ) (str : Option Nat),
      (∀ h ∈ heights, 0 ≤ h) → off ≤ heights.sum →
      (TableBody.heterogeneous_rows 0 heights off maxHeight base str).leading +
        (((TableBody.heterogeneous_rows 0 heights off maxHeight base str).rendered.map
            Prod.snd).sum) +
        (TableBody.heterogeneous_rows 0 heights off maxHeight base str).trailing =
        heights.sum ∧
      ∃ pre post,
        enumerate 0 heights =
          pre ++ (TableBody.heterogeneous_rows 0 heights off maxHeight base str).rendered
            ++ post ∧
        (TableBody.heterogeneous_rows 0 heights off maxHeight base str).leading =
          heightsTotal 0 pre ∧
        (TableBody.heterogeneous_rows 0 heights off maxHeight base str).trailing =
          heightsTotal 0 post) ∧
    (∀ (h₁ h₂ : List ℚ) (o₁ o₂ m₁ m₂ b₁ b₂ : ℚ) (s₁ s₂ : Option Nat),
      h₁ = h₂ → o₁ = o₂ → m₁ = m₂ → b₁ = b₂ → s₁ = s₂ →
      TableBody.heterogeneous_rows 0 h₁ o₁ m₁ b₁ s₁ =
        TableBody.heterogeneous_rows 0 h₂ o₂ m₂ b₂ s₂) := by
  constructor
  · intro heights off maxHeight base str hnn hoff
    rcases hE : hetPhase1 str off 0 base (enumerate 0 heights) 0 none with ⟨o, rest, c, s⟩
    rcases o with - | ⟨lead, fr⟩
    · -- the skip loop exhausted the iterator: only possible when heights = []
      rcases heights with - | ⟨h, t⟩
      · simp only [TableBody.heterogeneous_rows, enumerate] at hE ⊢
        simp [hetPhase1] at hE
        simp [hetPhase1, heightsTotal_nil]
        exact ⟨[], [], by simp, by simp [heightsTotal_nil]⟩
      · exfalso
        have hfind := hetPhase1_finds_row str off 0 base (enumerate 0 (h :: t)) 0 none
          (by simp [enumerate]) (by rw [heightsTotal_enumerate_zero]; linarith)
        rw [hE] at hfind
        simp at hfind
    · obtain ⟨pre, hpre, hlead, hc⟩ :=
        hetPhase1_some str off 0 base (enumerate 0 heights) 0 none lead fr rest c s hE
      obtain ⟨hdec, -⟩ := hetPhase2_decomp str (off + maxHeight) 0 base rest c s
      set p2 := hetPhase2 str (off + maxHeight) 0 base rest c s with hp2
      obtain ⟨hbelow, -⟩ := hetPhase3_spec str 0 base p2.2.1 p2.2.2.1 p2.2.2.2
      have hsum : heights.sum =
          heightsTotal 0 pre + fr.2 + heightsTotal 0 p2.1 + heightsTotal 0 p2.2.1 := by
        rw [← heightsTotal_enumerate_zero heights, hpre, hdec]
        rw [heightsTotal_append, heightsTotal_cons, heightsTotal_append]
        ring
      have hrem_nonneg : 0 ≤ heightsTotal 0 p2.2.1 := by
        refine heightsTotal_nonneg 0 _ le_rfl ?_
        intro q hq
        refine hnn q.2 (enumerate_snd_mem 0 heights q ?_)
        rw [hpre, hdec]
        simp only [List.mem_append, List.mem_cons]
        right; right; right
        exact hq
      have hres : TableBody.heterogeneous_rows 0 heights off maxHeight base str =
          { leading := lead
            rendered := fr :: p2.1
            trailing :=
              if 0 < (hetPhase3 str 0 base p2.2.1 p2.2.2.1 p2.2.2.2).1 then
                (hetPhase3 str 0 base p2.2.1 p2.2.2.1 p2.2.2.2).1 else 0
            scrollToY :=
              if str.isSome ∧ (hetPhase3 str 0 base p2.2.1 p2.2.2.1 p2.2.2.2).2.2 = none
              then some (base + (hetPhase3 str 0 base p2.2.1 p2.2.2.1 p2.2.2.2).2.1,
                         base + (hetPhase3 str 0 base p2.2.1 p2.2.2.1 p2.2.2.2).2.1)
              else (hetPhase3 str 0 base p2.2.1 p2.2.2.1 p2.2.2.2).2.2
            cursorEnd := (hetPhase3 str 0 base p2.2.1 p2.2.2.1 p2.2.2.2).2.1 } := by
        simp only [TableBody.heterogeneous_rows, hE]
      have htrail : (TableBody.heterogeneous_rows 0 heights off maxHeight base str).trailing =
          heightsTotal 0 p2.2.1 := by
        rw [hres]
        simp only [hbelow]
        split
        · rfl
        · rename_i hle
          push_neg at hle
          linarith
      constructor
      · rw [htrail, hres]
        simp only [List.map_cons, List.sum_cons, hlead, heightsTotal_nil]
        rw [← heightsTotal_zero_spacing p2.1, hsum]
        ring
      · refine ⟨pre, p2.2.1, ?_, ?_, htrail⟩
        · rw [hres, hpre, hdec]
          simp
        · rw [hres, hlead]
          simp
  · intro h₁ h₂ o₁ o₂ m₁ m₂ b₁ b₂ s₁ s₂ e1 e2 e3 e4 e5
    rw [e1, e2, e3, e4, e5]

/-- C1 counterexample.  With row heights `[1]` and scroll offset `2`
(strictly beyond the total content height `1`), `heterogeneous_rows` emits no
leading spacer, no rows and no trailing spacer, so
`leading + Σ(rendered) + trailing = 0 ≠ 1 = Σ(all heights)`: the claim fails
for offsets strictly beyond the total content height. -/
theorem heterogeneous_rows_exactness_cex :
    (TableBody.heterogeneous_rows 0 [1] 2 1 0 none).leading +
      (((TableBody.heterogeneous_rows 0 [1] 2 1 0 none).rendered.map Prod.snd).sum) +
      (TableBody.heterogeneous_rows 0 [1] 2 1 0 none).trailing = 0 ∧
    ([(1 : ℚ)].sum = 1) ∧ (0 : ℚ) ≠ 1 := by
  refine ⟨?_, by simp, by norm_num⟩
  norm_num [TableBody.heterogeneous_rows, hetPhase1, enumerate]

/-- C1 witness: the amended exactness theorem applied at heights `[2, 3]`,
offset `4`, viewport height `1`. -/
theorem heterogeneous_rows_exactness_witness :
    (TableBody.heterogeneous_rows 0 [2, 3] 4 1 0 none).leading +
      (((TableBody.heterogeneous_rows 0 [2, 3] 4 1 0 none).rendered.map Prod.snd).sum) +
      (TableBody.heterogeneous_rows 0 [2, 3] 4 1 0 none).trailing = ([(2 : ℚ), 3].sum) :=
  (heterogeneous_rows_exactness.1 [2, 3] 4 1 0 none
    (by
      intro h hmem
      simp only [List.mem_cons, List.not_mem_nil, or_false] at hmem
      rcases hmem with rfl | rfl
      · norm_num
      · norm_num)
    (by norm_num)).1

/-- C2 counterexample.  With row height 20, 10000 total rows, viewport height
400 and scroll offset 205, `TableBody::rows` computes
`max_row = ceil((205+400)/20) as usize + 1 = 31 + 1 = 32`, so the rendered
window is `[10, 32)` (22 rows), not `[10, 31)` (21 rows) as the claim states.
-/
theorem uniform_rows_windowing_cex :
    (TableBody.rows 20 0 10000 0 205 400 none).renderedRows ≠ List.range' 10 21 := by
  have : (TableBody.rows 20 0 10000 0 205 400 none).renderedRows = List.range' 10 22 := by
    simp only [TableBody.rows]
    norm_num [min_def]
    rw [show ⌈(121 : ℚ) / 4⌉ = 31 by rw [Int.ceil_eq_iff]; norm_num]
    decide
  rw [this]
  decide

/-- C2 (amended).  Uniform-height windowing at row height 20, 10000 total
rows, viewport height 400, scroll offset 205: `min_row = 10`, the rendered
window is `[10, 32)` — that is, `ceil((205+400)/20) + 1 = 32`, 22 rows — and
the leading spacer is `10 * 20 = 200`. -/
theorem uniform_rows_windowing :
    (TableBody.rows 20 0 10000 0 205 400 none).min_row = 10 ∧
    (TableBody.rows 20 0 10000 0 205 400 none).max_row = 32 ∧
    (TableBody.rows 20 0 10000 0 205 400 none).renderedRows = List.range' 10 22 ∧
    (TableBody.rows 20 0 10000 0 205 400 none).leadingSpacer = 200 := by
  refine ⟨?_, ?_, ?_, ?_⟩
  · simp only [TableBody.rows]
    norm_num [min_def]
    decide
  · simp only [TableBody.rows]
    norm_num [min_def]
    rw [show ⌈(121 : ℚ) / 4⌉ = 31 by rw [Int.ceil_eq_iff]; norm_num]
    decide
  · simp only [TableBody.rows]
    norm_num [min_def]
    rw [show ⌈(121 : ℚ) / 4⌉ = 31 by rw [Int.ceil_eq_iff]; norm_num]
    decide
  · simp only [TableBody.rows]
    norm_num [min_def, show Int.toNat 10 = 10 from rfl]

/-- C10.  Emitted row indices stay in bounds in `TableBody::rows`: the
effective scroll offset is first clamped to
`total_rows * row_height_with_spacing`, then for every sensible row height
(`row_height_with_spacing > 0`, heights and spacing nonnegative) and every
viewport height and scroll offset — including offsets far beyond the total
content height — `min_row ≤ max_row ≤ total_rows`, the rendered window is the
contiguous range `[min_row, max_row)` so only indices `< total_rows` are
emitted, and both spacer heights are nonnegative. -/
theorem uniform_rows_bounds (hSans spacingY : ℚ) (totalRows : Nat)
    (base offRaw maxH : ℚ) (str : Option Nat)
    (hsp : 0 ≤ spacingY) (hh : 0 ≤ hSans) (hpos : 0 < hSans + spacingY)
    (hmh : 0 ≤ maxH) :
    (TableBody.rows hSans spacingY totalRows base offRaw maxH str).scroll_offset_y =
      Min.min offRaw ((totalRows : ℚ) * (hSans + spacingY)) ∧
    (TableBody.rows hSans spacingY totalRows base offRaw maxH str).min_row ≤
      (TableBody.rows hSans spacingY totalRows base offRaw maxH str).max_row ∧
    (TableBody.rows hSans spacingY totalRows base offRaw maxH str).max_row ≤ totalRows ∧
    (TableBody.rows hSans spacingY totalRows base offRaw maxH str).renderedRows =
      List.range' (TableBody.rows hSans spacingY totalRows base offRaw maxH str).min_row
        ((TableBody.rows hSans spacingY totalRows base offRaw maxH str).max_row -
          (TableBody.rows hSans spacingY totalRows base offRaw maxH str).min_row) ∧
    (∀ r ∈ (TableBody.rows hSans spacingY totalRows base offRaw maxH str).renderedRows,
      r < totalRows) ∧
    0 ≤ (TableBody.rows hSans spacingY totalRows base offRaw maxH str).leadingSpacer ∧
    0 ≤ (TableBody.rows hSans spacingY totalRows base offRaw maxH str).trailingSpacer := by
  simp only [TableBody.rows]
  set hWs := hSans + spacingY with hWsDef
  set off := Min.min offRaw ((totalRows : ℚ) * hWs) with offDef
  have hoffLe : off ≤ (totalRows : ℚ) * hWs := min_le_right _ _
  set minRow : Nat := if 0 < off then (⌊off / hWs⌋).toNat else 0 with minRowDef
  set maxRow0 : Nat := (⌈(off + maxH) / hWs⌉).toNat + 1 with maxRow0Def
  set maxRow : Nat := Min.min maxRow0 totalRows with maxRowDef
  have hminLeTotal : minRow ≤ totalRows := by
    rw [minRowDef]
    split
    · rename_i hoffPos
      rw [Int.toNat_le]
      have h1 : off / hWs ≤ (totalRows : ℚ) := by
        rw [div_le_iff₀ hpos]
        exact hoffLe
      calc ⌊off / hWs⌋ ≤ ⌊(totalRows : ℚ)⌋ := Int.floor_le_floor h1
        _ = (totalRows : ℤ) := Int.floor_natCast _
    · exact Nat.zero_le _
  have hminLeMax0 : minRow ≤ maxRow0 := by
    rw [minRowDef, maxRow0Def]
    split
    · rename_i hoffPos
      have h1 : ⌊off / hWs⌋ ≤ ⌈(off + maxH) / hWs⌉ := by
        calc ⌊off / hWs⌋ ≤ ⌈off / hWs⌉ := Int.floor_le_ceil _
          _ ≤ ⌈(off + maxH) / hWs⌉ := by
              refine Int.ceil_le_ceil ?_
              refine div_le_div_of_nonneg_right ?_ hpos.le
              linarith
      exact le_trans (Int.toNat_le_toNat h1) (Nat.le_succ _)
    · exact Nat.zero_le _
  have hminLeMax : minRow ≤ maxRow := le_min hminLeMax0 hminLeTotal
  refine ⟨by trivial, hminLeMax, min_le_right _ _, by trivial, ?_, ?_, ?_⟩
  · intro r hr
    rw [List.mem_range'_1] at hr
    have : r < minRow + (maxRow - minRow) := hr.2
    rw [Nat.add_sub_cancel' hminLeMax] at this
    exact lt_of_lt_of_le this (min_le_right _ _)
  · split
    · positivity
    · exact le_refl 0
  · split
    · rename_i hrem
      have h1 : (1 : ℚ) ≤ ((totalRows - maxRow : Nat) : ℚ) := by
        exact_mod_cast Nat.one_le_iff_ne_zero.mpr (Nat.pos_iff_ne_zero.mp hrem)
      have h2 : hWs ≤ ((totalRows - maxRow : Nat) : ℚ) * hWs := by
        nlinarith
      have h3 : spacingY ≤ hWs := by
        rw [hWsDef]
        linarith
      linarith
    · exact le_refl 0

/-- C10 witness: the bounds theorem applied at row height 20, spacing 0,
3 rows, scroll offset 1000 (far beyond the total content height 60). -/
theorem uniform_rows_bounds_witness :
    (TableBody.rows 20 0 3 0 1000 400 none).max_row ≤ 3 :=
  (uniform_rows_bounds 20 0 3 0 1000 400 none (by norm_num) (by norm_num)
    (by norm_num) (by norm_num)).2.2.1

theorem enumerate_fst_lt (n : Nat) (l : List ℚ) :
    ∀ p ∈ enumerate n l, p.1 < n + l.length := by
  induction l generalizing n with
  | nil => intro p hp; simp [enumerate] at hp
  | cons h t ih =>
    intro p hp
    simp only [enumerate, List.mem_cons] at hp
    rcases hp with rfl | hp
    · simp
    · have := ih (n + 1) p hp
      simp only [List.length_cons]
      omega

theorem hetPhase1_sAcc_preserved (str : Option Nat) (off sp base : ℚ) :
    ∀ (l : List (Nat × ℚ)) (cursor : ℚ) (sAcc : Option (ℚ × ℚ)),
      (∀ p ∈ l, str ≠ some p.1) →
      (hetPhase1 str off sp base l cursor sAcc).2.2.2 = sAcc := by
  intro l
  induction l with
  | nil => intro cursor sAcc _; simp [hetPhase1]
  | cons p t ih =>
    intro cursor sAcc hni
    obtain ⟨i, hh⟩ := p
    have hne : ¬(str = some i) := hni (i, hh) (List.mem_cons_self _ _)
    simp only [hetPhase1, hne, if_false]
    split
    · rfl
    · exact ih _ _ (fun q hq => hni q (List.mem_cons_of_mem _ hq))

theorem hetPhase2_sAcc_preserved (str : Option Nat) (lim sp base : ℚ) :
    ∀ (l : List (Nat × ℚ)) (cursor : ℚ) (sAcc : Option (ℚ × ℚ)),
      (∀ p ∈ l, str ≠ some p.1) →
      (hetPhase2 str lim sp base l cursor sAcc).2.2.2 = sAcc := by
  intro l
  induction l with
  | nil => intro cursor sAcc _; simp [hetPhase2]
  | cons p t ih =>
    intro cursor sAcc hni
    obtain ⟨i, hh⟩ := p
    have hne : ¬(str = some i) := hni (i, hh) (List.mem_cons_self _ _)
    simp only [hetPhase2, hne, if_false]
    split
    · rfl
    · exact ih _ _ (fun q hq => hni q (List.mem_cons_of_mem _ hq))

theorem hetPhase3_sAcc_preserved (str : Option Nat) (sp base : ℚ) :
    ∀ (l : List (Nat × ℚ)) (cursor : ℚ) (sAcc : Option (ℚ × ℚ)),
      (∀ p ∈ l, str ≠ some p.1) →
      (hetPhase3 str sp base l cursor sAcc).2.2 = sAcc := by
  intro l
  induction l with
  | nil => intro cursor sAcc _; simp [hetPhase3]
  | cons p t ih =>
    intro cursor sAcc hni
    obtain ⟨i, hh⟩ := p
    have hne : ¬(str = some i) := hni (i, hh) (List.mem_cons_self _ _)
    simp only [hetPhase3, hne, if_false]
    exact ih _ _ (fun q hq => hni q (List.mem_cons_of_mem _ hq))

/-- C9 (amended).  Requesting scroll to a row index at or beyond the total
number of rows is not an error in either entry mode, but the two modes resolve
it differently: `heterogeneous_rows` resolves the target to a single point at
the very end of the total content, while `rows` clamps the index to the last
row (`total_rows - 1`) and resolves the target to that row's full
`[top, bottom]` span, whose bottom edge is the end of the total content — not
a single point (see the counterexample). -/
theorem scroll_to_row_past_end :
    (∀ (spacing : ℚ) (heights : List ℚ) (off maxH base : ℚ) (r : Nat),
      heights.length ≤ r →
      (TableBody.heterogeneous_rows spacing heights off maxH base (some r)).scrollToY =
        some (base + heightsTotal spacing (enumerate 0 heights),
              base + heightsTotal spacing (enumerate 0 heights))) ∧
    (∀ (hSans spacingY : ℚ) (totalRows : Nat) (base offRaw maxH : ℚ) (r : Nat),
      totalRows ≤ r →
      (TableBody.rows hSans spacingY totalRows base offRaw maxH (some r)).scrollToY =
        some (base + ((totalRows - 1 : Nat) : ℚ) * (hSans + spacingY),
              base + (((totalRows - 1 : Nat) : ℚ) + 1) * (hSans + spacingY))) := by
  constructor
  · intro spacing heights off maxH base r hr
    have hni : ∀ p ∈ enumerate 0 heights, (some r : Option Nat) ≠ some p.1 := by
      intro p hp heq
      have hlt := enumerate_fst_lt 0 heights p hp
      simp only [Nat.zero_add] at hlt
      have : r = p.1 := by injection heq
      omega
    rcases hE : hetPhase1 (some r) off spacing base (enumerate 0 heights) 0 none
      with ⟨o, rest, c, sA⟩
    have hsA : sA = none := by
      have := hetPhase1_sAcc_preserved (some r) off spacing base
        (enumerate 0 heights) 0 none hni
      rw [hE] at this
      exact this
    rcases o with - | ⟨lead, fr⟩
    · obtain ⟨-, hc⟩ := hetPhase1_none (some r) off spacing base
        (enumerate 0 heights) 0 none rest c sA hE
      simp only [TableBody.heterogeneous_rows, hE, hsA]
      simp only [Option.isSome_some, true_and, if_pos rfl]
      rw [hc]
      norm_num
    · obtain ⟨pre, hpre, hlead, hc⟩ := hetPhase1_some (some r) off spacing base
        (enumerate 0 heights) 0 none lead fr rest c sA hE
      have hrest_mem : ∀ p ∈ rest, (some r : Option Nat) ≠ some p.1 := by
        intro p hp
        refine hni p ?_
        rw [hpre]
        simp only [List.mem_append, List.mem_cons]
        right; right
        exact hp
      obtain ⟨hdec, hcur2⟩ := hetPhase2_decomp (some r) (off + maxH) spacing base rest c sA
      set p2 := hetPhase2 (some r) (off + maxH) spacing base rest c sA with hp2
      have hsA2 : p2.2.2.2 = none := by
        rw [hp2, hetPhase2_sAcc_preserved (some r) (off + maxH) spacing base rest c sA
          hrest_mem, hsA]
      have hrem_mem : ∀ p ∈ p2.2.1, (some r : Option Nat) ≠ some p.1 := by
        intro p hp
        refine hrest_mem p ?_
        rw [hdec]
        exact List.mem_append_right _ hp
      obtain ⟨-, hcur3⟩ := hetPhase3_spec (some r) spacing base p2.2.1 p2.2.2.1 p2.2.2.2
      have hsA3 : (hetPhase3 (some r) spacing base p2.2.1 p2.2.2.1 p2.2.2.2).2.2 = none := by
        rw [hetPhase3_sAcc_preserved (some r) spacing base p2.2.1 p2.2.2.1 p2.2.2.2
          hrem_mem, hsA2]
      have hTotal : (hetPhase3 (some r) spacing base p2.2.1 p2.2.2.1 p2.2.2.2).2.1 =
          heightsTotal spacing (enumerate 0 heights) := by
        rw [hcur3, hcur2, hpre, hdec, hc, hlead]
        rw [heightsTotal_append, heightsTotal_cons, heightsTotal_append]
        ring
      simp only [TableBody.heterogeneous_rows, hE, hsA3]
      simp only [Option.isSome_some, true_and, if_pos rfl]
      rw [hTotal]
      simp
  · intro hSans spacingY totalRows base offRaw maxH r hr
    have hmin : Min.min r (totalRows - 1) = totalRows - 1 :=
      Nat.min_eq_right (le_trans (Nat.sub_le _ _) hr)
    simp only [TableBody.rows, hmin]

/-- C9 counterexample.  In uniform-height mode with 3 rows of height 20,
requesting scroll to row 5 resolves to the last row's span `(40, 60)` — a
range of positive extent, not a single point — refuting the claim that both
entry modes resolve an out-of-range target to a single point at the end of
content. -/
theorem scroll_to_row_past_end_cex :
    (TableBody.rows 20 0 3 0 0 100 (some 5)).scrollToY = some (40, 60) ∧
    (40 : ℚ) ≠ 60 := by
  constructor
  · simp only [TableBody.rows]
    norm_num [min_def]
  · decide

/-- C9 witness: the amended theorem applied to heights `[1, 2]` with target
row 5 (past the end), and to 3 uniform rows of height 20 with target row 7. -/
theorem scroll_to_row_past_end_witness :
    (TableBody.heterogeneous_rows 0 [1, 2] 0 10 0 (some 5)).scrollToY =
      some (0 + heightsTotal 0 (enumerate 0 [1, 2]),
            0 + heightsTotal 0 (enumerate 0 [1, 2])) ∧
    (TableBody.rows 20 0 3 0 0 100 (some 7)).scrollToY =
      some (0 + ((3 - 1 : Nat) : ℚ) * (20 + 0),
            0 + (((3 - 1 : Nat) : ℚ) + 1) * (20 + 0)) :=
  ⟨scroll_to_row_past_end.1 0 [1, 2] 0 10 0 5 (by decide),
   scroll_to_row_past_end.2 20 0 3 0 0 100 7 (by decide)⟩

-- ---------------------------------------------------------------------------
-- Column model and resize state machines (table.rs)
-- ---------------------------------------------------------------------------

/-- Model of `InitialColumnSize` (table.rs lines 184-194). -/
inductive InitialColumnSize
  | Absolute (width : ℚ)
  | Automatic (suggested_width : ℚ)
  | Remainder
deriving DecidableEq, Repr

/-- Model of `Column` (table.rs lines 196-214). -/
structure Column where
  initial_width : InitialColumnSize
  width_range : Rangef
  clip : Bool
  resizable : Option Bool
  auto_size_this_frame : Bool
  fixed : Bool
deriving DecidableEq, Repr

/-- Model of `Column::is_auto` (table.rs lines 334-339). -/
def Column.is_auto (c : Column) : Bool :=
  match c.initial_width with
  | InitialColumnSize.Automatic _ => true
  | InitialColumnSize.Absolute _ => false
  | InitialColumnSize.Remainder => false

/-- Model of `ColumnResizeMode` (table.rs lines 156-160). -/
inductive ColumnResizeMode
  | Live
  | Deferred
deriving DecidableEq, Repr

/-- Model of `ResizePreviewState` (table.rs lines 1045-1054). -/
structure ResizePreviewState where
  active : Bool
  column : Option Nat
  start_width : ℚ
  start_pointer_x : ℚ
  start_handle_x : ℚ
  pending_width : ℚ
  preview_x : ℚ
deriving DecidableEq, Repr

/-- Model of `ResizePreviewState::default()`: all fields zero / inactive. -/
def ResizePreviewState.default : ResizePreviewState :=
  { active := false, column := none, start_width := 0, start_pointer_x := 0,
    start_handle_x := 0, pending_width := 0, preview_x := 0 }

/-- Live-mode width update in the body grid-line loop
(table.rs lines 1438-1446):
`new_width = clamp(column_width + drag_delta.x, at_least max_used unless clip,
[min, max])`. -/
def bodyLiveNewWidth (clip : Bool) (maxUsed : ℚ) (width_range : Rangef)
    (w dragDelta : ℚ) : ℚ :=
  let newWidth := w + dragDelta
  let newWidth := if clip then newWidth else atLeast newWidth maxUsed
  width_range.clamp newWidth

/-- Live-mode width update in the header-only resize path of `Table::body`
(table.rs lines 1608-1620): the floor is `max_used_widths[i] - 8.0`, not
`max_used_widths[i]`. -/
def headerOnlyLiveNewWidth (clip : Bool) (maxUsed : ℚ) (width_range : Rangef)
    (w dragDelta : ℚ) : ℚ :=
  let newWidth := w + dragDelta
  let newWidth := if clip then newWidth else atLeast newWidth (maxUsed - 8)
  width_range.clamp newWidth

/-- Live-mode width update in `TableBuilder::header` (table.rs lines
823-831): identical to the body formula. -/
def builderHeaderLiveNewWidth (clip : Bool) (maxUsed : ℚ) (width_range : Rangef)
    (w dragDelta : ℚ) : ℚ :=
  let newWidth := w + dragDelta
  let newWidth := if clip then newWidth else atLeast newWidth maxUsed
  width_range.clamp newWidth

/-- The Live-mode width formula as the specification states it: previous
width plus this frame's pointer delta, floored at the measured content width
whenever `clip` is false, then clamped into the declared range. -/
def specLiveNewWidth (clip : Bool) (maxUsed : ℚ) (width_range : Rangef)
    (w dragDelta : ℚ) : ℚ :=
  width_range.clamp (if clip then w + dragDelta else atLeast (w + dragDelta) maxUsed)

/-- Drag-start capture of a Deferred drag (table.rs lines 1456-1466 and
834-844): when the pointer position is known, record the start width, the
start pointer x and the handle x into a fresh, active preview state. -/
def deferredCapture (i : Nat) (resizeX : ℚ) (pointerPos : Option ℚ) (w : ℚ)
    (rp : ResizePreviewState) : ResizePreviewState :=
  match pointerPos with
  | some px =>
    { active := true, column := some i, start_width := w,
      start_pointer_x := px, start_handle_x := resizeX,
      pending_width := w, preview_x := resizeX }
  | none => rp

/-- Per-frame pending-width update of an active Deferred drag (table.rs
lines 1469-1478 and 847-858): `pending_width = clamp(start_width + delta,
at_least measured unless clip, [min,max])`, `preview_x = start_handle_x +
delta`. -/
def deferredPointerUpdate (clip : Bool) (maxUsed : ℚ) (width_range : Rangef)
    (pointerPos : Option ℚ) (rp1 : ResizePreviewState) : ResizePreviewState :=
  match pointerPos with
  | some px =>
    let delta := px - rp1.start_pointer_x
    let newWidth := rp1.start_width + delta
    let newWidth := if clip then newWidth else atLeast newWidth maxUsed
    { rp1 with pending_width := width_range.clamp newWidth,
               preview_x := rp1.start_handle_x + delta }
  | none => rp1

/-- Update/commit part of the Deferred logic in the body grid-line loop
(table.rs lines 1468-1484), applied to the preview state after a possible
drag-start capture. -/
def deferredFinish (clip : Bool) (maxUsed : ℚ) (width_range : Rangef)
    (dragStopped : Bool) (pointerPos : Option ℚ) (w : ℚ)
    (rp1 : ResizePreviewState) (i : Nat) : ℚ × ResizePreviewState :=
  if rp1.active = true ∧ rp1.column = some i then
    let rp2 := deferredPointerUpdate clip maxUsed width_range pointerPos rp1
    if dragStopped then (rp2.pending_width, ResizePreviewState.default)
    else (w, rp2)
  else (w, rp1)

/-- Deferred-mode resize logic in the body grid-line loop (table.rs lines
1456-1484).  Inputs are the per-frame drag response flags, the pointer
position, the column width after the per-frame clamp, and the stored
`ResizePreviewState`; outputs are the new column width and preview state. -/
def bodyDeferredResize (i : Nat) (clip : Bool) (maxUsed : ℚ)
    (width_range : Rangef) (resizeX : ℚ) (dragStarted dragStopped : Bool)
    (pointerPos : Option ℚ) (w : ℚ) (rp : ResizePreviewState) :
    ℚ × ResizePreviewState :=
  let rp1 :=
    if dragStarted then deferredCapture i resizeX pointerPos w rp else rp
  deferredFinish clip maxUsed width_range dragStopped pointerPos w rp1 i

/-- Deferred-mode resize logic in `TableBuilder::header` (table.rs lines
833-869).  `stateW` is `state.column_widths[i]`, `headerW` is
`header_widths[i]` (the display copy used to lay out the header row this
frame).  Returns `(new stateW, new headerW, new preview)`. -/
def headerDeferredResize (i : Nat) (clip : Bool) (maxUsed : ℚ)
    (width_range : Rangef) (resizeX : ℚ) (dragStarted dragStopped : Bool)
    (pointerPos : Option ℚ) (stateW headerW : ℚ) (rp : ResizePreviewState) :
    ℚ × ℚ × ResizePreviewState :=
  let rp1 :=
    if dragStarted then deferredCapture i resizeX pointerPos headerW rp else rp
  let upd :=
    if rp1.active = true ∧ rp1.column = some i then
      let rp2 := deferredPointerUpdate clip maxUsed width_range pointerPos rp1
      (rp2.pending_width, rp2)
    else (headerW, rp1)
  if dragStopped = true ∧ upd.2.column = some i then
    (upd.2.pending_width, upd.2.pending_width, ResizePreviewState.default)
  else (stateW, upd.1, upd.2)

/-- Per-frame, per-column interaction inputs for the grid-line loop of
`Table::body` (table.rs lines 1378-1721): the drag-response flags of the
per-column interact region, the raw pointer state, and the configuration
that selects which resize path runs. -/
structure BodyStepInput where
  is_sizing_pass : Bool
  resizable : Bool
  resizable_body : Bool
  header_bottom : Option ℚ
  resize_mode : ColumnResizeMode
  /-- `valid_rect.is_positive()` for the body resize strip -/
  valid_rect_positive : Bool
  /-- `interact_rect.is_positive()` for the header-only resize strip -/
  interact_rect_positive : Bool
  dragged : Bool
  drag_started : Bool
  drag_stopped : Bool
  pointer_pos : Option ℚ
  drag_delta : ℚ
  primary_down : Bool
  primary_pressed : Bool
  pointer_in_rect : Bool
  was_dragging : Bool
deriving DecidableEq, Repr

/-- The per-frame clamp at the top of the grid-line loop of `Table::body`
(table.rs lines 1386-1395): in a sizing pass the width is set from the
measured content width; otherwise, unless `clip`, it is floored at the
measured content width; finally it is clamped into the declared range. -/
def perFrameClampWidth (isSizingPass clip : Bool) (maxUsed : ℚ)
    (width_range : Rangef) (w : ℚ) : ℚ :=
  let w1 :=
    if isSizingPass then
      if clip then atMost w maxUsed else maxUsed
    else
      if clip then w else atLeast w maxUsed
  width_range.clamp w1

/-- The header-only resize strip of `Table::body` (table.rs lines
1564-1712).  NOTE: this code is unreachable from `Table::body` — it requires
`resizable_body = false` (the else branch of line 1419) together with
`header_bottom.is_some()` while `header_resize_handled` (line 1378,
`!resizable_body && header_bottom.is_some()`) is false — but it is modelled
faithfully; its Live formula floors at `max_used - 8.0`. -/
def headerOnlyStripStep (inp : BodyStepInput) (i : Nat) (col : Column)
    (maxUsed resizeX w2 : ℚ) (rp : ResizePreviewState) :
    ℚ × ResizePreviewState :=
  if inp.interact_rect_positive = true then
    let isDragging :=
      (inp.primary_pressed = true ∧ inp.pointer_in_rect = true) ∨
        (inp.was_dragging = true ∧ inp.primary_down = true)
    if inp.resize_mode = ColumnResizeMode.Live then
      if isDragging then
        if col.auto_size_this_frame = true then
          (col.width_range.clamp maxUsed, rp)
        else
          (headerOnlyLiveNewWidth col.clip maxUsed col.width_range w2
            inp.drag_delta, rp)
      else (w2, rp)
    else
      let rp1 :=
        if inp.primary_pressed = true ∧ inp.pointer_in_rect = true then
          deferredCapture i resizeX inp.pointer_pos w2 rp
        else rp
      let rp2 :=
        if isDragging ∧ rp1.active = true ∧ rp1.column = some i then
          deferredPointerUpdate col.clip maxUsed col.width_range
            inp.pointer_pos rp1
        else rp1
      if inp.was_dragging = true ∧ ¬ inp.primary_down = true ∧
          rp2.column = some i then
        (rp2.pending_width, ResizePreviewState.default)
      else (w2, rp2)
  else (w2, rp)

/-- One iteration of the per-column grid-line loop of `Table::body`
(table.rs lines 1380-1721), restricted to the parts that mutate
`column_widths[i]` and the `ResizePreviewState`.  `w` is the stored
`column_widths[i]` at loop entry, `maxUsed` is `max_used_widths_ref[i]`
(this frame's measured content width), `resizeX` the handle x position.
Returns the new `(column_widths[i], ResizePreviewState)`. -/
def bodyColumnStep (inp : BodyStepInput) (i : Nat) (col : Column)
    (maxUsed resizeX : ℚ) (w : ℚ) (rp : ResizePreviewState) :
    ℚ × ResizePreviewState :=
  -- lines 1386-1395
  let w2 := perFrameClampWidth inp.is_sizing_pass col.clip maxUsed
    col.width_range w
  let columnIsResizable := col.resizable.getD inp.resizable
  -- line 1378
  let headerResizeHandled := (¬ inp.resizable_body) ∧ inp.header_bottom.isSome
  -- lines 1399-1718
  if col.is_auto = true ∧ (inp.is_sizing_pass = true ∨ ¬ columnIsResizable = true) then
    (col.width_range.clamp maxUsed, rp)
  else if columnIsResizable = true then
    if inp.resizable_body = true then
      if inp.valid_rect_positive = true then
        if col.auto_size_this_frame = true then
          (col.width_range.clamp maxUsed, rp)
        else if inp.resize_mode = ColumnResizeMode.Live then
          if inp.dragged = true then
            (bodyLiveNewWidth col.clip maxUsed col.width_range w2
              inp.drag_delta, rp)
          else (w2, rp)
        else
          bodyDeferredResize i col.clip maxUsed col.width_range resizeX
            inp.drag_started inp.drag_stopped inp.pointer_pos w2 rp
      else (w2, rp)
    else
      if headerResizeHandled then
        -- lines 1544-1563: draw only, no width change
        (w2, rp)
      else
        match inp.header_bottom with
        | some _ => headerOnlyStripStep inp i col maxUsed resizeX w2 rp
        | none => (w2, rp)
  else (w2, rp)

theorem widthInv_clamp (clip : Bool) (mu : ℚ) (r : Rangef) (y : ℚ)
    (hr : r.min ≤ r.max) (hmu : mu ≤ r.max) (hy : clip = false → mu ≤ y) :
    r.min ≤ r.clamp y ∧ r.clamp y ≤ r.max ∧ (clip = false → mu ≤ r.clamp y) := by
  refine ⟨(r.clamp_mem y hr).1, (r.clamp_mem y hr).2, ?_⟩
  intro hc
  exact r.le_clamp_of_le y mu (hy hc) hmu

/-- C4 counterexample.  In the header-only Live path, with `clip = false`,
previous width 100, measured content width 100, drag delta −20 and range
`[0, 1000]`, the code computes `at_least(80, 100 − 8) = 92`, whereas the
claimed formula (floor at the measured content width itself) gives 100: the
two formulas disagree, so the claim is false for the header-only strip. -/
theorem live_resize_formula_cex :
    headerOnlyLiveNewWidth false 100 ⟨0, 1000⟩ 100 (-20) = 92 ∧
    specLiveNewWidth false 100 ⟨0, 1000⟩ 100 (-20) = 100 ∧
    (92 : ℚ) ≠ 100 := by
  refine ⟨?_, ?_, by decide⟩
  · simp only [headerOnlyLiveNewWidth, atLeast, Rangef.clamp]
    norm_num [max_def, min_def]
  · simp only [specLiveNewWidth, atLeast, Rangef.clamp]
    norm_num [max_def, min_def]

/-- C4 (amended).  Live-mode resize width formula: the body strip
(`Table::body`, lines 1438-1446) and the `TableBuilder::header` strip (lines
823-831) both compute
`clamp(previous + delta, at_least measured-content-width unless clip,
[min,max])`, exactly the claimed formula; the header-only strip of
`Table::body` (lines 1608-1620) instead floors at
`measured-content-width − 8.0` (and that branch is additionally unreachable,
since it requires `resizable_body` to be both true and false — see
`bodyColumnStep`). -/
theorem live_resize_formula :
    (∀ (clip : Bool) (mu : ℚ) (r : Rangef) (w d : ℚ),
      bodyLiveNewWidth clip mu r w d = specLiveNewWidth clip mu r w d) ∧
    (∀ (clip : Bool) (mu : ℚ) (r : Rangef) (w d : ℚ),
      builderHeaderLiveNewWidth clip mu r w d = specLiveNewWidth clip mu r w d) ∧
    (∀ (clip : Bool) (mu : ℚ) (r : Rangef) (w d : ℚ),
      headerOnlyLiveNewWidth clip mu r w d = specLiveNewWidth clip (mu - 8) r w d) := by
  refine ⟨?_, ?_, ?_⟩
  · intro clip mu r w d
    rfl
  · intro clip mu r w d
    rfl
  · intro clip mu r w d
    rfl

/-- C3.  Deferred-mode resize commit semantics, in both code paths that run
Deferred-mode drags (the body grid-line loop, table.rs lines 1456-1484, and
`TableBuilder::header`, lines 833-869):
1. while the drag is in progress (no `drag_stopped`), the stored column width
   is untouched;
2. the preview's `pending_width` tracks
   `clamp(start_width + (pointer_x − start_pointer_x), at_least measured
   unless clip, [min,max])`;
3. on release the column width is set to this frame's `pending_width` and the
   preview state is reset to its inactive default;
4. once reset, a frame without a new drag start leaves the width and the
   (default) preview state unchanged, so the commit happens exactly once. -/
theorem deferred_resize_commit :
    (∀ (i : Nat) (clip : Bool) (mu : ℚ) (r : Rangef) (rx : ℚ) (ds : Bool)
        (pp : Option ℚ) (w : ℚ) (rp : ResizePreviewState),
      (bodyDeferredResize i clip mu r rx ds false pp w rp).1 = w) ∧
    (∀ (i : Nat) (clip : Bool) (mu : ℚ) (r : Rangef) (rx px w : ℚ)
        (rp : ResizePreviewState),
      rp.active = true → rp.column = some i →
      (bodyDeferredResize i clip mu r rx false false (some px) w rp).2.pending_width =
        r.clamp (if clip then rp.start_width + (px - rp.start_pointer_x)
                 else atLeast (rp.start_width + (px - rp.start_pointer_x)) mu)) ∧
    (∀ (i : Nat) (clip : Bool) (mu : ℚ) (r : Rangef) (rx px w : ℚ)
        (rp : ResizePreviewState),
      rp.active = true → rp.column = some i →
      (bodyDeferredResize i clip mu r rx false true (some px) w rp).1 =
        r.clamp (if clip then rp.start_width + (px - rp.start_pointer_x)
                 else atLeast (rp.start_width + (px - rp.start_pointer_x)) mu) ∧
      (bodyDeferredResize i clip mu r rx false true (some px) w rp).2 =
        ResizePreviewState.default) ∧
    (∀ (i : Nat) (clip : Bool) (mu : ℚ) (r : Rangef) (rx : ℚ) (stop : Bool)
        (pp : Option ℚ) (w : ℚ),
      (bodyDeferredResize i clip mu r rx false stop pp w
          ResizePreviewState.default).1 = w ∧
      (bodyDeferredResize i clip mu r rx false stop pp w
          ResizePreviewState.default).2 = ResizePreviewState.default) ∧
    (∀ (i : Nat) (clip : Bool) (mu : ℚ) (r : Rangef) (rx : ℚ) (ds : Bool)
        (pp : Option ℚ) (stateW headerW : ℚ) (rp : ResizePreviewState),
      (headerDeferredResize i clip mu r rx ds false pp stateW headerW rp).1 = stateW) ∧
    (∀ (i : Nat) (clip : Bool) (mu : ℚ) (r : Rangef) (rx px stateW headerW : ℚ)
        (rp : ResizePreviewState),
      rp.active = true → rp.column = some i →
      (headerDeferredResize i clip mu r rx false false (some px) stateW headerW
          rp).2.2.pending_width =
        r.clamp (if clip then rp.start_width + (px - rp.start_pointer_x)
                 else atLeast (rp.start_width + (px - rp.start_pointer_x)) mu)) ∧
    (∀ (i : Nat) (clip : Bool) (mu : ℚ) (r : Rangef) (rx px stateW headerW : ℚ)
        (rp : ResizePreviewState),
      rp.active = true → rp.column = some i →
      (headerDeferredResize i clip mu r rx false true (some px) stateW headerW rp).1 =
        r.clamp (if clip then rp.start_width + (px - rp.start_pointer_x)
                 else atLeast (rp.start_width + (px - rp.start_pointer_x)) mu) ∧
      (headerDeferredResize i clip mu r rx false true (some px) stateW headerW rp).2.2 =
        ResizePreviewState.default) := by
  refine ⟨?_, ?_, ?_, ?_, ?_, ?_, ?_⟩
  · intro i clip mu r rx ds pp w rp
    cases ds <;> cases pp <;>
      (simp only [bodyDeferredResize, deferredFinish, deferredCapture,
        deferredPointerUpdate]
       (repeat' split) <;> simp_all)
  · intro i clip mu r rx px w rp ha hc
    simp [bodyDeferredResize, deferredFinish, deferredCapture,
      deferredPointerUpdate, ha, hc]
  · intro i clip mu r rx px w rp ha hc
    simp [bodyDeferredResize, deferredFinish, deferredCapture,
      deferredPointerUpdate, ha, hc, ResizePreviewState.default]
  · intro i clip mu r rx stop pp w
    simp [bodyDeferredResize, deferredFinish, deferredCapture,
      deferredPointerUpdate, ResizePreviewState.default]
  · intro i clip mu r rx ds pp stateW headerW rp
    cases ds <;> cases pp <;>
      (simp only [headerDeferredResize, deferredCapture, deferredPointerUpdate]
       (repeat' split) <;> simp_all)
  · intro i clip mu r rx px stateW headerW rp ha hc
    simp [headerDeferredResize, deferredCapture, deferredPointerUpdate, ha, hc]
  · intro i clip mu r rx px stateW headerW rp ha hc
    simp [headerDeferredResize, deferredCapture, deferredPointerUpdate, ha, hc,
      ResizePreviewState.default]

/-- C3 witness: a Deferred release frame on column 0 — start width 100,
pointer moved from 10 to 25, measured width 50, range `[0, 1000]` — commits
`clamp(100 + 15) = 115` and resets the preview state. -/
theorem deferred_resize_commit_witness :
    (bodyDeferredResize 0 false 50 ⟨0, 1000⟩ 0 false true (some 25) 100
        { active := true, column := some 0, start_width := 100,
          start_pointer_x := 10, start_handle_x := 0, pending_width := 100,
          preview_x := 0 }).1 =
      Rangef.clamp ⟨0, 1000⟩ (if false then (100 : ℚ) + (25 - 10)
        else atLeast ((100 : ℚ) + (25 - 10)) 50) :=
  (deferred_resize_commit.2.2.1 0 false 50 ⟨0, 1000⟩ 0 25 100
    { active := true, column := some 0, start_width := 100,
      start_pointer_x := 10, start_handle_x := 0, pending_width := 100,
      preview_x := 0 } rfl rfl).1

theorem widthInv_clamp_atLeastIf (clip : Bool) (mu : ℚ) (r : Rangef) (y : ℚ)
    (hr : r.min ≤ r.max) (hmu : mu ≤ r.max) :
    r.min ≤ r.clamp (if clip then y else atLeast y mu) ∧
    r.clamp (if clip then y else atLeast y mu) ≤ r.max ∧
    (clip = false → mu ≤ r.clamp (if clip then y else atLeast y mu)) := by
  refine widthInv_clamp clip mu r _ hr hmu ?_
  intro hc
  simp only [hc, Bool.false_eq_true, if_false, atLeast]
  exact le_max_right _ _

theorem deferredPointerUpdate_pending_inv (clip : Bool) (mu : ℚ) (r : Rangef)
    (pp : Option ℚ) (rp1 : ResizePreviewState)
    (hr : r.min ≤ r.max) (hmu : mu ≤ r.max)
    (hrp1 : r.min ≤ rp1.pending_width ∧ rp1.pending_width ≤ r.max ∧
      (clip = false → mu ≤ rp1.pending_width)) :
    r.min ≤ (deferredPointerUpdate clip mu r pp rp1).pending_width ∧
    (deferredPointerUpdate clip mu r pp rp1).pending_width ≤ r.max ∧
    (clip = false → mu ≤ (deferredPointerUpdate clip mu r pp rp1).pending_width) := by
  cases pp with
  | none => exact hrp1
  | some px =>
    simp only [deferredPointerUpdate]
    exact widthInv_clamp_atLeastIf clip mu r _ hr hmu

theorem deferredFinish_fst_inv (clip : Bool) (mu : ℚ) (r : Rangef)
    (stop : Bool) (pp : Option ℚ) (w : ℚ) (rp1 : ResizePreviewState) (i : Nat)
    (hr : r.min ≤ r.max) (hmu : mu ≤ r.max)
    (hw1 : r.min ≤ w) (hw2 : w ≤ r.max) (hw3 : clip = false → mu ≤ w)
    (hrp1 : rp1.active = true →
      r.min ≤ rp1.pending_width ∧ rp1.pending_width ≤ r.max ∧
        (clip = false → mu ≤ rp1.pending_width)) :
    r.min ≤ (deferredFinish clip mu r stop pp w rp1 i).1 ∧
    (deferredFinish clip mu r stop pp w rp1 i).1 ≤ r.max ∧
    (clip = false → mu ≤ (deferredFinish clip mu r stop pp w rp1 i).1) := by
  unfold deferredFinish
  by_cases hact : rp1.active = true ∧ rp1.column = some i
  · rw [if_pos hact]
    have hupd := deferredPointerUpdate_pending_inv clip mu r pp rp1 hr hmu
      (hrp1 hact.1)
    cases stop
    · simp only [Bool.false_eq_true, if_false]
      exact ⟨hw1, hw2, hw3⟩
    · simp only [if_true]
      exact hupd
  · rw [if_neg hact]
    exact ⟨hw1, hw2, hw3⟩

theorem bodyDeferredResize_inv (i : Nat) (clip : Bool) (mu : ℚ) (r : Rangef)
    (rx : ℚ) (ds stop : Bool) (pp : Option ℚ) (w : ℚ) (rp : ResizePreviewState)
    (hr : r.min ≤ r.max) (hmu : mu ≤ r.max)
    (hw1 : r.min ≤ w) (hw2 : w ≤ r.max) (hw3 : clip = false → mu ≤ w)
    (hrp : rp.active = true →
      r.min ≤ rp.pending_width ∧ rp.pending_width ≤ r.max ∧
        (clip = false → mu ≤ rp.pending_width)) :
    r.min ≤ (bodyDeferredResize i clip mu r rx ds stop pp w rp).1 ∧
    (bodyDeferredResize i clip mu r rx ds stop pp w rp).1 ≤ r.max ∧
    (clip = false → mu ≤ (bodyDeferredResize i clip mu r rx ds stop pp w rp).1) := by
  unfold bodyDeferredResize
  refine deferredFinish_fst_inv clip mu r stop pp w _ i hr hmu hw1 hw2 hw3 ?_
  split
  · intro hact
    cases pp with
    | none => exact hrp hact
    | some px => exact ⟨hw1, hw2, hw3⟩
  · exact hrp

/-- C5 (amended).  Per-frame width clamp invariant: after the per-column
pass of `Table::body`, provided the declared range is non-empty
(`min ≤ max`), the measured content width does not exceed the declared `max`,
and any in-flight deferred preview's `pending_width` already satisfies the
same bounds, the resulting `column_widths[i]` lies within the declared
`[min, max]` range, and if the column's `clip` flag is false it is at least
this frame's measured content width `max_used_widths[i]`.  (Without the
`measured ≤ max` proviso the two requirements are contradictory and the code
lets the range clamp win — see the counterexample.) -/
theorem width_clamp_invariant (inp : BodyStepInput) (i : Nat) (col : Column)
    (maxUsed resizeX w : ℚ) (rp : ResizePreviewState)
    (hr : col.width_range.min ≤ col.width_range.max)
    (hmu : maxUsed ≤ col.width_range.max)
    (hrp : rp.active = true →
      col.width_range.min ≤ rp.pending_width ∧
        rp.pending_width ≤ col.width_range.max ∧
        (col.clip = false → maxUsed ≤ rp.pending_width)) :
    col.width_range.min ≤ (bodyColumnStep inp i col maxUsed resizeX w rp).1 ∧
    (bodyColumnStep inp i col maxUsed resizeX w rp).1 ≤ col.width_range.max ∧
    (col.clip = false →
      maxUsed ≤ (bodyColumnStep inp i col maxUsed resizeX w rp).1) := by
  have hclamp : ∀ y : ℚ, (col.clip = false → maxUsed ≤ y) →
      col.width_range.min ≤ col.width_range.clamp y ∧
        col.width_range.clamp y ≤ col.width_range.max ∧
        (col.clip = false → maxUsed ≤ col.width_range.clamp y) :=
    fun y hy => widthInv_clamp col.clip maxUsed col.width_range y hr hmu hy
  have hmuInv := hclamp maxUsed (fun _ => le_refl maxUsed)
  have hw2 : col.width_range.min ≤
      perFrameClampWidth inp.is_sizing_pass col.clip maxUsed col.width_range w ∧
      perFrameClampWidth inp.is_sizing_pass col.clip maxUsed col.width_range w ≤
        col.width_range.max ∧
      (col.clip = false → maxUsed ≤
        perFrameClampWidth inp.is_sizing_pass col.clip maxUsed col.width_range w) := by
    unfold perFrameClampWidth
    refine hclamp _ ?_
    intro hc
    simp only [hc, Bool.false_eq_true, if_false]
    split
    · exact le_refl maxUsed
    · simp only [atLeast]
      exact le_max_right _ _
  simp only [bodyColumnStep]
  split
  · exact hmuInv
  split
  · -- the column is resizable
    split
    · -- resizable_body: the body resize strip
      split
      · -- valid_rect.is_positive()
        split
        · exact hmuInv
        split
        · -- Live mode
          split
          · exact widthInv_clamp_atLeastIf col.clip maxUsed col.width_range _ hr hmu
          · exact hw2
        · -- Deferred mode
          exact bodyDeferredResize_inv i col.clip maxUsed col.width_range resizeX
            inp.drag_started inp.drag_stopped inp.pointer_pos _ rp hr hmu
            hw2.1 hw2.2.1 hw2.2.2 hrp
      · exact hw2
    · -- header-only: the strip either only draws, or is the unreachable branch
      rename_i hnbody
      split
      · exact hw2
      · rename_i hnhdr
        split
        · rename_i hb heq
          exfalso
          exact hnhdr ⟨hnbody, by simp [heq]⟩
        · exact hw2
  · exact hw2

/-- C5 counterexample.  A non-resizable, non-clipped column declared with
range `[0, 50]` whose content measures 80 wide: the per-frame clamp yields
width 50, which violates `width ≥ measured_content_width` — the two halves of
the claimed invariant are contradictory whenever the measured width exceeds
the declared max, and the code lets the range clamp win. -/
theorem width_clamp_invariant_cex :
    (bodyColumnStep
        { is_sizing_pass := false, resizable := false, resizable_body := true,
          header_bottom := none, resize_mode := ColumnResizeMode.Live,
          valid_rect_positive := false, interact_rect_positive := false,
          dragged := false, drag_started := false, drag_stopped := false,
          pointer_pos := none, drag_delta := 0, primary_down := false,
          primary_pressed := false, pointer_in_rect := false,
          was_dragging := false }
        0
        { initial_width := InitialColumnSize.Absolute 100,
          width_range := ⟨0, 50⟩, clip := false, resizable := some false,
          auto_size_this_frame := false, fixed := false }
        80 0 10 ResizePreviewState.default).1 = 50 ∧
    ¬((80 : ℚ) ≤ 50) := by
  constructor
  · simp only [bodyColumnStep, perFrameClampWidth, Column.is_auto, atLeast,
      Rangef.clamp]
    norm_num [max_def, min_def]
  · norm_num

/-- C5 witness: the invariant theorem applied to a non-resizable column with
range `[0, 100]`, measured width 30, stored width 10 — the resulting width is
at least the declared minimum. -/
theorem width_clamp_invariant_witness :
    ({ initial_width := InitialColumnSize.Absolute 100,
       width_range := ⟨0, 100⟩, clip := false, resizable := some false,
       auto_size_this_frame := false, fixed := false } : Column).width_range.min ≤
      (bodyColumnStep
        { is_sizing_pass := false, resizable := false, resizable_body := true,
          header_bottom := none, resize_mode := ColumnResizeMode.Live,
          valid_rect_positive := false, interact_rect_positive := false,
          dragged := false, drag_started := false, drag_stopped := false,
          pointer_pos := none, drag_delta := 0, primary_down := false,
          primary_pressed := false, pointer_in_rect := false,
          was_dragging := false }
        0
        { initial_width := InitialColumnSize.Absolute 100,
          width_range := ⟨0, 100⟩, clip := false, resizable := some false,
          auto_size_this_frame := false, fixed := false }
        30 0 10 ResizePreviewState.default).1 :=
  (width_clamp_invariant _ 0 _ 30 0 10 ResizePreviewState.default
    (by decide) (by decide) (fun h => absurd h (by decide))).1

-- ---------------------------------------------------------------------------
-- Column sizing: `crate::sizing` (modelled from the spec) and
-- `TableState::load` (table.rs, lines 1056-1121)
-- ---------------------------------------------------------------------------

/-- Modelled from the spec: the size-policy tags of the missing
`crate::sizing::Size` type (egui_extras `sizing.rs` is not among the
provided sources); §4.1 names the three policies Exact, ContentDriven and
Remainder. -/
inductive SizeKind
  | Exact (w : ℚ)
  | Initial (w : ℚ)
  | Remainder
deriving DecidableEq, Repr

/-- Modelled from the spec: a `crate::sizing::Size` — a policy plus an
allowed width range. -/
structure Size where
  kind : SizeKind
  range : Rangef
deriving DecidableEq, Repr

/-- Constructor `Size::exact(w)`: always this width. -/
def Size.exact (w : ℚ) : Size := ⟨SizeKind.Exact w, ⟨w, w⟩⟩

/-- Constructor `Size::initial(w)`: content-driven with suggestion `w`.  The default
range stands for `[0, ∞)`; every use in this development overwrites it with
`with_range` before it is read. -/
def Size.initial (w : ℚ) : Size := ⟨SizeKind.Initial w, ⟨0, 0⟩⟩

/-- Constructor `Size::remainder()`: a flexible, zero-minimum slot.  The default range
stands for `[0, ∞)`; every use in this development overwrites both endpoints
(`with_range`, or `at_least` plus `at_most`) before it is read. -/
def Size.remainder : Size := ⟨SizeKind.Remainder, ⟨0, 0⟩⟩

/-- Builder `Size::with_range`. -/
def Size.with_range (s : Size) (r : Rangef) : Size := { s with range := r }

/-- Builder `Size::at_least`: overwrite the range minimum. -/
def Size.at_least (s : Size) (m : ℚ) : Size :=
  { s with range := { s.range with min := m } }

/-- Builder `Size::at_most`: overwrite the range maximum. -/
def Size.at_most (s : Size) (m : ℚ) : Size :=
  { s with range := { s.range with max := m } }

/-- Modelled from the spec: `crate::sizing::Sizing`, an ordered collection
of `Size`s built with `add`. -/
structure Sizing where
  sizes : List Size
deriving DecidableEq, Repr

def Sizing.add (sz : Sizing) (s : Size) : Sizing := ⟨sz.sizes ++ [s]⟩

/-- Modelled from the spec: `Sizing::to_lengths` — the flex-distribution
rule of §4.1: "fixed/exact widths are subtracted off the top; remaining
width is shared equally among all flexible (ContentDriven + Remainder)
columns, then every column's result is clamped to its `[min,max]` range."
One width is produced per added `Size`. -/
def Sizing.to_lengths (sz : Sizing) (availableWidth spacing : ℚ) : List ℚ :=
  let n := sz.sizes.length
  let fixedSum := (sz.sizes.map (fun s =>
    match s.kind with
    | SizeKind.Exact w => w
    | SizeKind.Initial _ => 0
    | SizeKind.Remainder => 0)).sum
  let numFlex := (sz.sizes.filter (fun s =>
    match s.kind with
    | SizeKind.Exact _ => false
    | SizeKind.Initial _ => true
    | SizeKind.Remainder => true)).length
  let leftover := availableWidth - spacing * ((n - 1 : Nat) : ℚ) - fixedSum
  let share := if numFlex = 0 then 0 else leftover / (numFlex : ℚ)
  sz.sizes.map (fun s =>
    match s.kind with
    | SizeKind.Exact w => s.range.clamp w
    | SizeKind.Initial _ => s.range.clamp share
    | SizeKind.Remainder => s.range.clamp share)

theorem Sizing.to_lengths_length (sz : Sizing) (availableWidth spacing : ℚ) :
    (sz.to_lengths availableWidth spacing).length = sz.sizes.length := by
  simp [Sizing.to_lengths]

/-- Model of `to_sizing` (table.rs lines 342-356). -/
def to_sizing (columns : List Column) : Sizing :=
  ⟨columns.map (fun column =>
    (match column.initial_width with
     | InitialColumnSize.Absolute width => Size.exact width
     | InitialColumnSize.Automatic suggested_width => Size.initial suggested_width
     | InitialColumnSize.Remainder => Size.remainder).with_range
      column.width_range)⟩

theorem to_sizing_length (columns : List Column) :
    (to_sizing columns).sizes.length = columns.length := by
  simp [to_sizing]

/-- Model of `TableState` (table.rs lines 1032-1043). -/
structure TableState where
  column_widths : List ℚ
  scroll_offset : ℚ × ℚ
  max_used_widths : List ℚ
deriving DecidableEq, Repr

/-- The fresh state built by the `unwrap_or_else` closure of
`TableState::load` (table.rs lines 1079-1087). -/
def TableState.fresh (columns : List Column) (availableWidth spacing : ℚ) :
    TableState :=
  { column_widths := (to_sizing columns).to_lengths availableWidth spacing
    scroll_offset := (0, 0)
    max_used_widths := [] }

/-- The `Sizing` rebuilt on non-sizing-pass frames from the previous widths
and measured widths (table.rs lines 1093-1116). -/
def redistributeSizes (resizable : Bool) (state : TableState)
    (columns : List Column) : Sizing :=
  ⟨(state.column_widths.zip (state.max_used_widths.zip columns)).map
    (fun pc =>
      let prevWidth := pc.1
      let maxUsed := pc.2.1
      let column := pc.2.2
      let columnResizable := column.resizable.getD resizable
      if columnResizable then
        -- resizable columns keep their width
        Size.exact prevWidth
      else
        ((match column.initial_width with
          | InitialColumnSize.Absolute width => Size.exact width
          | InitialColumnSize.Automatic _ => Size.exact prevWidth
          | InitialColumnSize.Remainder => Size.remainder).at_least
            (Max.max column.width_range.min maxUsed)).at_most
          column.width_range.max)⟩

theorem redistributeSizes_length (resizable : Bool) (state : TableState)
    (columns : List Column) :
    (redistributeSizes resizable state columns).sizes.length =
      Min.min state.column_widths.length
        (Min.min state.max_used_widths.length columns.length) := by
  simp [redistributeSizes]

/-- Model of `TableState::load` (table.rs lines 1056-1121), as a pure function of the
stored blob.  The `check_for_id_clash` diagnostic call is external and has no
effect on the returned state.  Returns `(is_sizing_pass, state)`. -/
def TableState.load (stored : Option TableState) (uiIsSizingPass resizable : Bool)
    (columns : List Column) (availableWidth spacing : ℚ) : Bool × TableState :=
  -- line 1074: discard stored widths whose length is out-dated
  let state0 : Option TableState :=
    match stored with
    | some st => if st.column_widths.length = columns.length then some st else none
    | none => none
  -- lines 1076-1077
  let is_sizing_pass :=
    uiIsSizingPass || (state0.isNone && columns.any (fun c => c.is_auto))
  -- lines 1079-1087
  let state := state0.getD (TableState.fresh columns availableWidth spacing)
  -- lines 1089-1118
  if ¬ is_sizing_pass = true ∧ state.max_used_widths.length = columns.length then
    (is_sizing_pass,
      { state with column_widths :=
          ((redistributeSizes resizable state columns).to_lengths
            availableWidth spacing) })
  else (is_sizing_pass, state)

/-- C6.  Stale-state discard in `TableState::load`: a stored state whose
`column_widths` length differs from the current number of declared columns is
discarded and fresh widths are computed from the column specs via the flex
distribution; in every case the loaded state satisfies
`column_widths.length = columns.length`, and the mismatch is never surfaced
as an error (the function is total and always returns a state). -/
theorem table_state_load_discards_stale (stored : Option TableState)
    (uiIsSizingPass resizable : Bool) (columns : List Column)
    (availableWidth spacing : ℚ) :
    (TableState.load stored uiIsSizingPass resizable columns availableWidth
        spacing).2.column_widths.length = columns.length ∧
    (∀ st, stored = some st → st.column_widths.length ≠ columns.length →
      (TableState.load stored uiIsSizingPass resizable columns availableWidth
          spacing).2.column_widths =
        (to_sizing columns).to_lengths availableWidth spacing) := by
  have hgen : ∀ (b : Bool) (st : TableState),
      st.column_widths.length = columns.length →
      ((if ¬ b = true ∧ st.max_used_widths.length = columns.length then
          (b, { st with column_widths :=
            ((redistributeSizes resizable st columns).to_lengths
              availableWidth spacing) })
        else (b, st)).2.column_widths.length = columns.length) := by
    intro b st hlen
    split
    · rename_i hcond
      simp only [Sizing.to_lengths_length, redistributeSizes_length, hlen,
        hcond.2]
      simp
    · exact hlen
  have hfresh : (TableState.fresh columns availableWidth spacing).column_widths.length
      = columns.length := by
    simp only [TableState.fresh, Sizing.to_lengths_length, to_sizing_length]
  have hgen2 : ∀ (b : Bool),
      ((if ¬ b = true ∧
            (TableState.fresh columns availableWidth spacing).max_used_widths.length =
              columns.length then
          (b, { TableState.fresh columns availableWidth spacing with
            column_widths :=
              ((redistributeSizes resizable
                  (TableState.fresh columns availableWidth spacing)
                  columns).to_lengths availableWidth spacing) })
        else (b, TableState.fresh columns availableWidth spacing)).2.column_widths =
        (to_sizing columns).to_lengths availableWidth spacing) := by
    intro b
    split
    · rename_i hcond
      have hcols : columns = [] := by
        have h0 := hcond.2
        simp only [TableState.fresh, List.length_nil] at h0
        exact List.length_eq_zero.mp h0.symm
      subst hcols
      simp [redistributeSizes, Sizing.to_lengths, to_sizing, TableState.fresh]
    · rfl
  rcases stored with - | st
  · constructor
    · simp only [TableState.load, Option.getD, Option.isNone]
      exact hgen _ _ hfresh
    · intro st' hst'
      exact absurd hst' (by simp)
  · by_cases hlen : st.column_widths.length = columns.length
    · constructor
      · simp only [TableState.load, hlen, if_pos, Option.getD, Option.isNone]
        exact hgen _ _ hlen
      · intro st' hst' hne
        have : st' = st := by
          injection hst' with h
          exact h.symm
        subst this
        exact absurd hlen hne
    · constructor
      · simp only [TableState.load, hlen, if_neg, Option.getD, Option.isNone]
        exact hgen _ _ hfresh
      · intro st' hst' hne
        simp only [TableState.load, hlen, if_neg, Option.getD, Option.isNone]
        exact hgen2 _

/-- C6 witness: a stored state with 1 width loaded against 2 declared
remainder columns is discarded; the loaded widths are recomputed from the
column specs. -/
theorem table_state_load_discards_stale_witness :
    (TableState.load
        (some { column_widths := [7], scroll_offset := (0, 0),
                max_used_widths := [] })
        false false
        [{ initial_width := InitialColumnSize.Remainder,
           width_range := ⟨0, 1000⟩, clip := false, resizable := none,
           auto_size_this_frame := false, fixed := false },
         { initial_width := InitialColumnSize.Remainder,
           width_range := ⟨0, 1000⟩, clip := false, resizable := none,
           auto_size_this_frame := false, fixed := false }]
        100 0).2.column_widths =
      (to_sizing
        [{ initial_width := InitialColumnSize.Remainder,
           width_range := ⟨0, 1000⟩, clip := false, resizable := none,
           auto_size_this_frame := false, fixed := false },
         { initial_width := InitialColumnSize.Remainder,
           width_range := ⟨0, 1000⟩, clip := false, resizable := none,
           auto_size_this_frame := false, fixed := false }]).to_lengths 100 0 :=
  (table_state_load_discards_stale
      (some { column_widths := [7], scroll_offset := (0, 0),
              max_used_widths := [] })
      false false _ 100 0).2
    { column_widths := [7], scroll_offset := (0, 0), max_used_widths := [] }
    rfl (by decide)

-- ---------------------------------------------------------------------------
-- Row height resizing: `row_resize.rs`
-- ---------------------------------------------------------------------------

/-- Association-list lookup, modelling `HashMap::get` on
`row_heights: HashMap<usize, f32>` (only lookup/insert/remove semantics of
the map are relevant; iteration order never is). -/
def lookupKey (k : Nat) : List (Nat × ℚ) → Option ℚ
  | [] => none
  | (j, v) :: rest => if j = k then some v else lookupKey k rest

/-- Removal of a key, modelling `HashMap::remove` (keys are unique in a
`HashMap`; removing every binding of the key is lookup-equivalent). -/
def eraseKey (k : Nat) : List (Nat × ℚ) → List (Nat × ℚ)
  | [] => []
  | (j, v) :: rest =>
    if j = k then eraseKey k rest else (j, v) :: eraseKey k rest

theorem lookupKey_eraseKey_self (k : Nat) (l : List (Nat × ℚ)) :
    lookupKey k (eraseKey k l) = none := by
  induction l with
  | nil => rfl
  | cons p t ih =>
    obtain ⟨j, v⟩ := p
    by_cases hj : j = k
    · simpa [eraseKey, hj] using ih
    · simp only [eraseKey, if_neg hj, lookupKey]
      exact ih

theorem lookupKey_eraseKey_ne (k j : Nat) (l : List (Nat × ℚ)) (h : j ≠ k) :
    lookupKey j (eraseKey k l) = lookupKey j l := by
  induction l with
  | nil => rfl
  | cons p t ih =>
    obtain ⟨i, v⟩ := p
    by_cases hik : i = k
    · have hij : ¬(i = j) := by
        intro hij
        exact h (by rw [← hij, hik])
      simp only [eraseKey, if_pos hik, lookupKey, if_neg hij]
      exact ih
    · simp only [eraseKey, if_neg hik, lookupKey]
      split
      · rfl
      · exact ih

/-- Model of `RowResizeState` (row_resize.rs lines 11-20): sparse per-row height
overrides plus the transient dragging row. -/
structure RowResizeState where
  row_heights : List (Nat × ℚ)
  dragging_row : Option Nat
deriving DecidableEq, Repr

/-- Model of `RowResizeState::default()`: empty map, no drag. -/
def RowResizeState.empty : RowResizeState := ⟨[], none⟩

/-- Model of `get_row_height` (row_resize.rs lines 48-50):
`row_heights.get(&row_index).copied().unwrap_or(default_height)`. -/
def RowResizeState.get_row_height (s : RowResizeState) (row_index : Nat)
    (default_height : ℚ) : ℚ :=
  (lookupKey row_index s.row_heights).getD default_height

/-- Model of `set_row_height` (row_resize.rs lines 53-55): `HashMap::insert`. -/
def RowResizeState.set_row_height (s : RowResizeState) (row_index : Nat)
    (height : ℚ) : RowResizeState :=
  { s with row_heights := (row_index, height) :: eraseKey row_index s.row_heights }

/-- Model of `reset_row_height` (row_resize.rs lines 58-60): `HashMap::remove`. -/
def RowResizeState.reset_row_height (s : RowResizeState) (row_index : Nat) :
    RowResizeState :=
  { s with row_heights := eraseKey row_index s.row_heights }

/-- Model of `reset_all` (row_resize.rs lines 63-65). -/
def RowResizeState.reset_all (s : RowResizeState) : RowResizeState :=
  { s with row_heights := [] }

/-- An operation on the override map, for stating "rows never written". -/
inductive RowOp
  | set (row_index : Nat) (height : ℚ)
  | reset (row_index : Nat)
  | resetAll
deriving DecidableEq, Repr

def applyOp : RowOp → RowResizeState → RowResizeState
  | RowOp.set i h, s => s.set_row_height i h
  | RowOp.reset i, s => s.reset_row_height i
  | RowOp.resetAll, s => s.reset_all

def applyOps : List RowOp → RowResizeState → RowResizeState
  | [], s => s
  | op :: rest, s => applyOps rest (applyOp op s)

theorem applyOps_lookup_none (r : Nat) :
    ∀ (ops : List RowOp) (s : RowResizeState),
      (∀ h : ℚ, RowOp.set r h ∉ ops) →
      lookupKey r s.row_heights = none →
      lookupKey r (applyOps ops s).row_heights = none := by
  intro ops
  induction ops with
  | nil => intro s _ h0; exact h0
  | cons op rest ih =>
    intro s hni h0
    have hrest : ∀ h : ℚ, RowOp.set r h ∉ rest := by
      intro h hmem
      exact hni h (List.mem_cons_of_mem _ hmem)
    refine ih _ hrest ?_
    cases op with
    | set i h =>
      have hir : i ≠ r := by
        intro hir
        subst hir
        exact hni h (List.mem_cons_self _ _)
      simp only [applyOp, RowResizeState.set_row_height, lookupKey,
        if_neg hir]
      rw [lookupKey_eraseKey_ne i r _ (fun hh => hir hh.symm)]
      exact h0
    | reset i =>
      by_cases hir : i = r
      · subst hir
        simp only [applyOp, RowResizeState.reset_row_height]
        exact lookupKey_eraseKey_self i s.row_heights
      · simp only [applyOp, RowResizeState.reset_row_height]
        rw [lookupKey_eraseKey_ne i r _ (fun hh => hir hh.symm)]
        exact h0
    | resetAll =>
      simp [applyOp, RowResizeState.reset_all, lookupKey]

/-- C7.  Row-height override round-trip:
`set_row_height(7, 42)` then `get_row_height(7, 20) = 42`; then
`reset_row_height(7)` then `get_row_height(7, 20) = 20`; a row never written
by any `set_row_height` always reads back as the supplied default; and
reading an effective height is always the override-map lookup with the
default as fallback. -/
theorem row_height_override_roundtrip :
    (∀ s : RowResizeState, (s.set_row_height 7 42).get_row_height 7 20 = 42) ∧
    (∀ s : RowResizeState,
      ((s.set_row_height 7 42).reset_row_height 7).get_row_height 7 20 = 20) ∧
    (∀ (ops : List RowOp) (r : Nat) (d : ℚ),
      (∀ h : ℚ, RowOp.set r h ∉ ops) →
      (applyOps ops RowResizeState.empty).get_row_height r d = d) ∧
    (∀ (s : RowResizeState) (i : Nat) (d : ℚ),
      s.get_row_height i d = (lookupKey i s.row_heights).getD d) := by
  refine ⟨?_, ?_, ?_, ?_⟩
  · intro s
    simp [RowResizeState.set_row_height, RowResizeState.get_row_height,
      lookupKey]
  · intro s
    simp only [RowResizeState.set_row_height, RowResizeState.reset_row_height,
      RowResizeState.get_row_height]
    rw [lookupKey_eraseKey_self]
    rfl
  · intro ops r d hni
    rw [RowResizeState.get_row_height,
      applyOps_lookup_none r ops RowResizeState.empty hni rfl]
    rfl
  · intro s i d
    rfl

/-- C7 witness: after `set_row_height(3, 5)` on a fresh state, the untouched
row 7 reads back as the default 20. -/
theorem row_height_override_roundtrip_witness :
    (applyOps [RowOp.set 3 5] RowResizeState.empty).get_row_height 7 20 = 20 :=
  row_height_override_roundtrip.2.2.1 [RowOp.set 3 5] 7 20
    (by
      intro h hmem
      simp only [List.mem_singleton] at hmem
      simp at hmem)

/-- Model of `RowResizeConfig` (row_resize.rs lines 79-96). -/
structure RowResizeConfig where
  enabled : Bool
  default_height : ℚ
  height_range : Rangef
  grab_radius : ℚ
  resize_in_body : Bool
deriving DecidableEq, Repr

/-- Model of `handle_row_resize` (row_resize.rs lines 144-220), as a pure function of
the per-frame pointer state.  `pointer_in_rect` is whether the hover
position lies in the border's interaction strip, `was_dragging` the
frame-persisted drag flag for this row, `drag_delta_y` is
`pointer.delta().y`.  Returns the new `RowResizeState`, the drag flag
written back (`none` on the early-return paths, which do not write it), and
the function's `Option<f32>` result.  The epsilon `0.01` of the source is
the exact rational `1/100` here. -/
def handle_row_resize (state : RowResizeState) (config : RowResizeConfig)
    (row_index : Nat) (is_header pointer_in_rect was_dragging primary_down
    primary_pressed : Bool) (drag_delta_y : ℚ) :
    RowResizeState × Option Bool × Option ℚ :=
  if ¬ config.enabled = true then (state, none, none)
  else if ¬ is_header = true ∧ ¬ config.resize_in_body = true then
    (state, none, none)
  else
    let si : RowResizeState × Bool :=
      if primary_pressed = true ∧ pointer_in_rect = true then
        ({ state with dragging_row := some row_index }, true)
      else if was_dragging = true ∧ primary_down = true then (state, true)
      else
        ((if was_dragging = true then { state with dragging_row := none }
          else state), false)
    let state1 := si.1
    let is_dragging := si.2
    if is_dragging then
      let current := state1.get_row_height row_index config.default_height
      let updated := config.height_range.clamp (current + drag_delta_y)
      if (1 : ℚ)/100 < |updated - current| then
        (state1.set_row_height row_index updated, some is_dragging,
          some updated)
      else (state1, some is_dragging, none)
    else (state1, some is_dragging, none)

/-- C8.  Row border drag update: during an active row drag
(`enabled`, allowed from this cell, and either a fresh press in the strip or
a continuing drag), `handle_row_resize` computes
`new_height = clamp(current_height + pointer_y_delta, height_range)` and
writes it into the sparse override map only when `|new − current| > 0.01`;
otherwise the override map is left unchanged for that frame and no new
height is returned. -/
theorem row_resize_drag_epsilon (state : RowResizeState)
    (config : RowResizeConfig) (row_index : Nat)
    (is_header pointer_in_rect was_dragging primary_down primary_pressed : Bool)
    (dy : ℚ)
    (hen : config.enabled = true)
    (hhdr : is_header = true ∨ config.resize_in_body = true)
    (hdrag : (primary_pressed = true ∧ pointer_in_rect = true) ∨
      (was_dragging = true ∧ primary_down = true)) :
    ((1 : ℚ)/100 <
        |config.height_range.clamp
            (state.get_row_height row_index config.default_height + dy) -
          state.get_row_height row_index config.default_height| →
      (handle_row_resize state config row_index is_header pointer_in_rect
          was_dragging primary_down primary_pressed dy).1.row_heights =
        (row_index,
          config.height_range.clamp
            (state.get_row_height row_index config.default_height + dy)) ::
          eraseKey row_index state.row_heights ∧
      (handle_row_resize state config row_index is_header pointer_in_rect
          was_dragging primary_down primary_pressed dy).2.2 =
        some (config.height_range.clamp
          (state.get_row_height row_index config.default_height + dy))) ∧
    (¬ ((1 : ℚ)/100 <
        |config.height_range.clamp
            (state.get_row_height row_index config.default_height + dy) -
          state.get_row_height row_index config.default_height|) →
      (handle_row_resize state config row_index is_header pointer_in_rect
          was_dragging primary_down primary_pressed dy).1.row_heights =
        state.row_heights ∧
      (handle_row_resize state config row_index is_header pointer_in_rect
          was_dragging primary_down primary_pressed dy).2.2 = none) := by
  have hen' : ¬ (¬ config.enabled = true) := by simp [hen]
  have hhdr' : ¬ (¬ is_header = true ∧ ¬ config.resize_in_body = true) := by
    rcases hhdr with hh | hb
    · simp [hh]
    · simp [hb]
  by_cases hpress : primary_pressed = true ∧ pointer_in_rect = true
  · constructor
    · intro heps
      simp only [handle_row_resize, if_neg hen', if_neg hhdr', if_pos hpress,
        RowResizeState.get_row_height, RowResizeState.set_row_height,
        if_pos rfl] at heps ⊢
      rw [if_pos heps]
      exact ⟨rfl, rfl⟩
    · intro heps
      simp only [handle_row_resize, if_neg hen', if_neg hhdr', if_pos hpress,
        RowResizeState.get_row_height, RowResizeState.set_row_height,
        if_pos rfl] at heps ⊢
      rw [if_neg heps]
      exact ⟨rfl, rfl⟩
  · have hcont : was_dragging = true ∧ primary_down = true := by
      rcases hdrag with h | h
      · exact absurd h hpress
      · exact h
    constructor
    · intro heps
      simp only [handle_row_resize, if_neg hen', if_neg hhdr', if_neg hpress,
        if_pos hcont, RowResizeState.get_row_height,
        RowResizeState.set_row_height, if_pos rfl] at heps ⊢
      rw [if_pos heps]
      exact ⟨rfl, rfl⟩
    · intro heps
      simp only [handle_row_resize, if_neg hen', if_neg hhdr', if_neg hpress,
        if_pos hcont, RowResizeState.get_row_height,
        RowResizeState.set_row_height, if_pos rfl] at heps ⊢
      rw [if_neg heps]
      exact ⟨rfl, rfl⟩

/-- C8 witness: a fresh press in the strip on row 2, default height 20,
drag delta 5, range `[10, 1000]`: the new height 25 is written (the change
exceeds 0.01). -/
theorem row_resize_drag_epsilon_witness :
    (handle_row_resize RowResizeState.empty
        { enabled := true, default_height := 20,
          height_range := ⟨10, 1000⟩, grab_radius := 5,
          resize_in_body := false }
        2 true true false false true 5).2.2 =
      some (Rangef.clamp ⟨10, 1000⟩
        (RowResizeState.empty.get_row_height 2 20 + 5)) :=
  ((row_resize_drag_epsilon RowResizeState.empty
      { enabled := true, default_height := 20, height_range := ⟨10, 1000⟩,
        grab_radius := 5, resize_in_body := false }
      2 true true false false true 5 rfl (Or.inl rfl)
      (Or.inl ⟨rfl, rfl⟩)).1
    (by
      simp only [RowResizeState.get_row_height, RowResizeState.empty,
        lookupKey, Option.getD, Rangef.clamp]
      norm_num [max_def, min_def])).2

end EguiTable

